import Mathlib

/-!
Verification of the GPK archive unpacker (gpk.cpp / gpk.h).

Shallow embedding: byte buffers are lists of natural numbers (each entry a
byte value below 256 in any real execution; reads normalise with mod 256),
the zlib inflate call is an explicit functional parameter since zlib is an
external dependency, and file input is a lookup from path bytes to file
bytes.  All definitions follow the C++ source line by line.
-/

/-- Fixed 16-byte XOR key CIPHERCODE from gpk.h. -/
def CIPHERCODE : List Nat :=
  [0x82, 0xEE, 0x1D, 0xB3, 0x57, 0xE9, 0x2C, 0xC2,
   0x2F, 0x54, 0x7B, 0x10, 0x4C, 0x9A, 0x75, 0x49]

/-- Key byte used for position i: CIPHERCODE[i mod 16]. -/
def keyByte (i : Nat) : Nat := CIPHERCODE.getD (i % 16) 0

/-- Decrypt loop of GPK::load, with an explicit running byte index:
byte i of the blob is XORed with CIPHERCODE[i mod 16]. -/
def xorFrom (i : Nat) : List Nat → List Nat
  | [] => []
  | c :: rest => (c ^^^ keyByte i) :: xorFrom (i + 1) rest

/-- Full-buffer decrypt pass (index starts at 0). -/
def xorCipher (b : List Nat) : List Nat := xorFrom 0 b

/-- Byte access into a buffer: out-of-range reads give 0, values are
normalised to the byte range (the C++ buffers hold uint8_t). -/
def getByte (buf : List Nat) (i : Nat) : Nat := buf.getD i 0 % 256

/-- Little-endian 16-bit read, as done by memcpy into a uint16_t. -/
def readU16 (buf : List Nat) (pos : Nat) : Nat :=
  getByte buf pos + 256 * getByte buf (pos + 1)

/-- Little-endian 32-bit read, as done by memcpy into a uint32_t. -/
def readU32 (buf : List Nat) (pos : Nat) : Nat :=
  getByte buf pos + 256 * getByte buf (pos + 1) +
    65536 * getByte buf (pos + 2) + 16777216 * getByte buf (pos + 3)

/-- Big-endian 32-bit size field read at the start of decompress_data:
(data[0] shl 24) or (data[1] shl 16) or (data[2] shl 8) or data[3]. -/
def declaredSize (data : List Nat) : Nat :=
  (getByte data 0 <<< 24) ||| (getByte data 1 <<< 16) |||
    (getByte data 2 <<< 8) ||| getByte data 3

/-- Error outcomes of GPK::decompress_data (the two throw sites): a zero
declared size, or a failing zlib uncompress call. -/
inductive DecodeError where
  | emptySize : DecodeError
  | codec : DecodeError
deriving DecidableEq

/-- Embedding of GPK::decompress_data.  The zlib call is abstracted by the
parameter inflate, giving the full inflated byte sequence of a zlib stream
(none models Z_DATA_ERROR / Z_MEM_ERROR).  uncompress writes that output
into the destination of capacity uncompressed_size and reports its actual
length in dest_len; output larger than the capacity is Z_BUF_ERROR.  The
function then resizes the result to dest_len and returns it. -/
def decompress_data (inflate : List Nat → Option (List Nat))
    (compressed_data : List Nat) : Except DecodeError (List Nat) :=
  if compressed_data.length < 4 then
    Except.ok compressed_data
  else
    let uncompressed_size := declaredSize compressed_data
    if uncompressed_size = 0 then
      Except.error DecodeError.emptySize
    else
      match inflate (compressed_data.drop 4) with
      | none => Except.error DecodeError.codec
      | some out =>
          if uncompressed_size < out.length then Except.error DecodeError.codec
          else Except.ok out

/-- Per-character body of the filename cleaning loop in GPK::load: printable
ASCII other than the seven excluded characters is kept; otherwise a
backslash or slash would be rewritten to a slash; every other character is
dropped.  (Both branches are written exactly as in the source; the second
branch is in fact unreachable, see c6 below.) -/
def keepChar (c : Nat) : List Nat :=
  if 32 ≤ c ∧ c ≤ 126 ∧ c ≠ 60 ∧ c ≠ 62 ∧ c ≠ 58 ∧
      c ≠ 34 ∧ c ≠ 124 ∧ c ≠ 63 ∧ c ≠ 42 then
    [c]
  else if c = 92 ∨ c = 47 then
    [47]
  else
    []

/-- Filename cleanup in GPK::load: first everything from the first NUL
onwards is erased, then each remaining character goes through the keep /
rewrite / drop loop. -/
def cleanName (s : List Nat) : List Nat :=
  (s.takeWhile (fun c => c ≠ 0)).flatMap keepChar

/-- Characters the cleaning loop actually keeps (specification-side
predicate used to characterise cleanName). -/
def keepPred (c : Nat) : Prop :=
  32 ≤ c ∧ c ≤ 126 ∧ c ∉ ([60, 62, 58, 34, 124, 63, 42] : List Nat)

instance (c : Nat) : Decidable (keepPred c) := by
  unfold keepPred; infer_instance

/-- UTF-8 encoding of one BMP code unit, the fall-through path of
GPK::utf16le_to_utf8 (1, 2 or 3 bytes). -/
def utf8Bmp (u : Nat) : List Nat :=
  if u < 0x80 then [u]
  else if u < 0x800 then
    [0xC0 ||| (u >>> 6), 0x80 ||| (u &&& 0x3F)]
  else
    [0xE0 ||| (u >>> 12), 0x80 ||| ((u >>> 6) &&& 0x3F), 0x80 ||| (u &&& 0x3F)]

/-- UTF-8 encoding of a valid surrogate pair (4 bytes). -/
def utf8Surr (hi lo : Nat) : List Nat :=
  (fun cp =>
    [0xF0 ||| (cp >>> 18), 0x80 ||| ((cp >>> 12) &&& 0x3F),
     0x80 ||| ((cp >>> 6) &&& 0x3F), 0x80 ||| (cp &&& 0x3F)])
  (0x10000 + ((hi &&& 0x3FF) <<< 10) + (lo &&& 0x3FF))

/-- Main loop of GPK::utf16le_to_utf8 over the 16-bit code units: a high
surrogate immediately followed by a low surrogate combines into one 4-byte
sequence and consumes both units; otherwise the unit is encoded as a BMP
character (including an unpaired high surrogate, also at buffer end). -/
def utf8OfUnits : List Nat → List Nat
  | [] => []
  | [u] => utf8Bmp u
  | u :: v :: rest =>
    if 0xD800 ≤ u ∧ u ≤ 0xDBFF ∧ 0xDC00 ≤ v ∧ v ≤ 0xDFFF then
      utf8Surr u v ++ utf8OfUnits rest
    else
      utf8Bmp u ++ utf8OfUnits (v :: rest)

/-- Pairing of raw bytes into little-endian 16-bit code units
(data[2i] or data[2i+1] shl 8). -/
def utf16Units : List Nat → List Nat
  | a :: b :: rest => (a % 256 + 256 * (b % 256)) :: utf16Units rest
  | _ => []

/-- Embedding of GPK::utf16le_to_utf8 on a byte buffer holding the
length_in_chars code units. -/
def utf16le_to_utf8 (bytes : List Nat) : List Nat :=
  utf8OfUnits (utf16Units bytes)

/-- GPKEntryHeader from gpk.h, a pack(1) record of the per-entry metadata. -/
structure GPKEntryHeader where
  sub_version : Nat
  version : Nat
  zero : Nat
  offset : Nat
  comprlen : Nat
  dflt : List Nat
  uncomprlen : Nat
  comprheadlen : Nat
deriving DecidableEq

/-- Under pragma pack(1), sizeof(GPKEntryHeader) is the sum of the field
widths: three u16, offset u32, comprlen u32, the 4-byte dflt tag,
uncomprlen u32 and the single comprheadlen byte. -/
def entryHeaderSize : Nat := 2 + 2 + 2 + 4 + 4 + 4 + 4 + 1

/-- Byte-for-byte read of a GPKEntryHeader at pos, as done by the memcpy of
sizeof(GPKEntryHeader) bytes onto the pack(1) struct (fields in declaration
order, multi-byte integers little-endian). -/
def readHeader (buf : List Nat) (pos : Nat) : GPKEntryHeader :=
  { sub_version := readU16 buf pos
    version := readU16 buf (pos + 2)
    zero := readU16 buf (pos + 4)
    offset := readU32 buf (pos + 6)
    comprlen := readU32 buf (pos + 10)
    dflt := [getByte buf (pos + 14), getByte buf (pos + 15),
             getByte buf (pos + 16), getByte buf (pos + 17)]
    uncomprlen := readU32 buf (pos + 18)
    comprheadlen := getByte buf (pos + 22) }

/-- One index entry: cleaned UTF-8 name plus its header. -/
structure GPKentry where
  name : List Nat
  header : GPKEntryHeader
deriving DecidableEq

/-- Outcome of one iteration of the entry-stream loop in GPK::load. -/
inductive StepRes where
  | stop : StepRes
  | skip (newPos : Nat) : StepRes
  | emit (e : GPKentry) (newPos : Nat) : StepRes
deriving DecidableEq

/-- One iteration of the while loop in GPK::load, at cursor pos: the loop
guard and the three break conditions give stop; an entry whose cleaned name
is empty gives skip (the header bytes are consumed without bounds check);
otherwise the header is read and the entry emitted.  All conditions mirror
the source order exactly. -/
def parseStep (buf : List Nat) (pos : Nat) : StepRes :=
  if ¬ pos < buf.length then StepRes.stop
  else if buf.length < pos + 2 then StepRes.stop
  else
    let n := readU16 buf pos
    if n = 0 then StepRes.stop
    else if buf.length < pos + 2 + 2 * n then StepRes.stop
    else
      let nm := cleanName (utf16le_to_utf8 ((buf.drop (pos + 2)).take (2 * n)))
      if nm = [] then StepRes.skip (pos + 2 + 2 * n + entryHeaderSize)
      else if buf.length < pos + 2 + 2 * n + entryHeaderSize then StepRes.stop
      else
        StepRes.emit ⟨nm, readHeader buf (pos + 2 + 2 * n)⟩
          (pos + 2 + 2 * n + entryHeaderSize)

/-- Fuel-indexed run of the parse loop.  Fuel is only consumed by iterations
that continue; none marks fuel exhaustion (shown unreachable for sufficient
fuel in c9 below). -/
def parseFuel : Nat → List Nat → Nat → List GPKentry → Option (List GPKentry)
  | 0, buf, pos, acc =>
      match parseStep buf pos with
      | StepRes.stop => some acc.reverse
      | StepRes.skip _ => none
      | StepRes.emit _ _ => none
  | fuel + 1, buf, pos, acc =>
      match parseStep buf pos with
      | StepRes.stop => some acc.reverse
      | StepRes.skip p => parseFuel fuel buf p acc
      | StepRes.emit e p => parseFuel fuel buf p (e :: acc)

/-- Entry list produced from a decompressed index buffer (buf.length fuel is
always enough, see c9). -/
def parseIndex (buf : List Nat) : List GPKentry :=
  (parseFuel buf.length buf 0 []).getD []

/-- Byte values of the string literal STKFile0PIDX (GPK_TAILER_IDENT0). -/
def GPK_TAILER_IDENT0 : List Nat :=
  [83, 84, 75, 70, 105, 108, 101, 48, 80, 73, 68, 88]

/-- Byte values of the string literal STKFile0PACKFILE (GPK_TAILER_IDENT1). -/
def GPK_TAILER_IDENT1 : List Nat :=
  [83, 84, 75, 70, 105, 108, 101, 48, 80, 65, 67, 75, 70, 73, 76, 69]

/-- Under pragma pack(1), sizeof(GPKsig): 12-byte sig0, u32 pidx_length,
16-byte sig1. -/
def sigRecordSize : Nat := 12 + 4 + 16

/-- Last sigRecordSize bytes of a file, as read by the trailer seek. -/
def trailerOf (file : List Nat) : List Nat :=
  file.drop (file.length - sigRecordSize)

/-- Outcome of GPK::load.  The source returns a bare bool; the three failure
returns are distinguished here by their distinct error messages (failed
open, broken signature including a short trailer read, and a caught
decompression exception). -/
inductive LoadResult where
  | openFail : LoadResult
  | badSignature : LoadResult
  | decodeFail (e : DecodeError) : LoadResult
  | ok : LoadResult
deriving DecidableEq

/-- Mutable state of a GPK object: the stored archive path and the entry
vector. -/
structure GPKState where
  name : List Nat
  entries : List GPKentry
deriving DecidableEq

/-- Embedding of GPK::load.  fs models the filesystem (path bytes to file
bytes, none for an unopenable file); inflate models the zlib codec as in
decompress_data.  The path is stored into the name field before anything is
validated.  A file shorter than the trailer makes the trailer read come up
short (gcount below sizeof(GPKsig)), reported together with a signature
mismatch.  The blob seek position fileSize - sizeof(GPKsig) - pidx_length is
computed in unsigned arithmetic: when pidx_length exceeds the space before
the trailer the seek fails and the read leaves the zero-filled buffer as it
was - there is no validation of the range.  Parsed entries are appended to
the existing entry vector. -/
def load (inflate : List Nat → Option (List Nat))
    (fs : List Nat → Option (List Nat)) (g : GPKState)
    (file_name : List Nat) : LoadResult × GPKState :=
  let g1 : GPKState := { g with name := file_name }
  match fs file_name with
  | none => (LoadResult.openFail, g1)
  | some file =>
      if file.length < sigRecordSize then (LoadResult.badSignature, g1)
      else if (trailerOf file).take 12 ≠ GPK_TAILER_IDENT0 ∨
          ((trailerOf file).drop 16).take 16 ≠ GPK_TAILER_IDENT1 then
        (LoadResult.badSignature, g1)
      else
        let pidx_length := readU32 (trailerOf file) 12
        let compressedData :=
          if sigRecordSize + pidx_length ≤ file.length then
            (file.drop (file.length - sigRecordSize - pidx_length)).take
              pidx_length
          else
            List.replicate pidx_length 0
        match decompress_data inflate (xorCipher compressedData) with
        | Except.error e => (LoadResult.decodeFail e, g1)
        | Except.ok uncompressedData =>
            (LoadResult.ok,
             { name := file_name,
               entries := g.entries ++ parseIndex uncompressedData })

/-- Basename-and-strip-extension computation of GPK::getName on a path:
take the suffix after the last backslash or slash (the whole path when
neither occurs), then cut at the last dot when one exists. -/
def displayName (path : List Nat) : List Nat :=
  (fun base =>
    if 46 ∈ base then ((base.reverse.dropWhile (fun c => c ≠ 46)).drop 1).reverse
    else base)
  ((path.reverse.takeWhile (fun c => c ≠ 92 ∧ c ≠ 47)).reverse)

/-- GPK::getName reads the stored name field. -/
def getName (g : GPKState) : List Nat := displayName g.name

/-- Read cursor over the opened archive file during unpack_all, with the
stream fail state: a failed stream ignores seeks and reads nothing. -/
structure InStream where
  data : List Nat
  pos : Nat
  failed : Bool
deriving DecidableEq

/-- seekg on the read stream: a failed stream stays failed and keeps its
position; otherwise the position is set (seeking past the end succeeds). -/
def sseek (s : InStream) (p : Nat) : InStream :=
  if s.failed then s else { s with pos := p }

/-- read of n bytes into a zero-initialised buffer: a failed stream leaves
the buffer untouched; otherwise the available bytes are copied and a short
read sets the fail state, leaving the tail of the buffer zero. -/
def sread (s : InStream) (n : Nat) : List Nat × InStream :=
  if s.failed then (List.replicate n 0, s)
  else
    (fun got =>
      ((s.data.drop s.pos).take got ++ List.replicate (n - got) 0,
       { s with pos := s.pos + got, failed := decide (got < n) }))
    (min n (s.data.length - s.pos))

/-- Per-entry body of GPK::unpack_all threaded over the entry list: seek to
header.offset, read header.comprlen bytes, write the buffer (of exactly
comprlen bytes) to the output path given by the entry name.  The outputs
are collected as (name, content) pairs. -/
def unpack_all (entries : List GPKentry) (s : InStream) :
    List (List Nat × List Nat) × InStream :=
  match entries with
  | [] => ([], s)
  | e :: rest =>
      let s1 := sseek s e.header.offset
      let r := sread s1 e.header.comprlen
      let rec2 := unpack_all rest r.2
      ((e.name, r.1) :: rec2.1, rec2.2)

/-- Files written by unpack_all on a freshly opened archive stream. -/
def unpackOutputs (file : List Nat) (entries : List GPKentry) :
    List (List Nat × List Nat) :=
  (unpack_all entries ⟨file, 0, false⟩).1

theorem xorFrom_xorFrom (i : Nat) (b : List Nat) :
    xorFrom i (xorFrom i b) = b := by
  induction b generalizing i with
  | nil => rfl
  | cons c rest ih =>
      simp [xorFrom, ih, Nat.xor_assoc]

/-- C7: applying the fixed repeating-key XOR keystream twice returns the
input byte sequence unchanged. -/
theorem c7_xor_involutive (b : List Nat) : xorCipher (xorCipher b) = b :=
  xorFrom_xorFrom 0 b

theorem keepChar_eq (c : Nat) :
    keepChar c = if keepPred c then [c] else [] := by
  have hmem : c ∉ ([60, 62, 58, 34, 124, 63, 42] : List Nat) ↔
      (c ≠ 60 ∧ c ≠ 62 ∧ c ≠ 58 ∧ c ≠ 34 ∧ c ≠ 124 ∧ c ≠ 63 ∧ c ≠ 42) := by
    simp only [List.mem_cons, List.not_mem_nil, or_false]
    push_neg
    tauto
  unfold keepChar keepPred
  by_cases h1 : 32 ≤ c ∧ c ≤ 126 ∧ c ≠ 60 ∧ c ≠ 62 ∧ c ≠ 58 ∧
      c ≠ 34 ∧ c ≠ 124 ∧ c ≠ 63 ∧ c ≠ 42
  · rw [if_pos h1, if_pos ⟨h1.1, h1.2.1, hmem.mpr h1.2.2⟩]
  · rw [if_neg h1]
    have hnp : ¬ (32 ≤ c ∧ c ≤ 126 ∧
        c ∉ ([60, 62, 58, 34, 124, 63, 42] : List Nat)) := by
      intro hk
      exact h1 ⟨hk.1, hk.2.1, hmem.mp hk.2.2⟩
    rw [if_neg hnp]
    by_cases h2 : c = 92 ∨ c = 47
    · exfalso
      apply h1
      rcases h2 with h | h <;> subst h <;> decide
    · rw [if_neg h2]

theorem cleanName_eq_filter (s : List Nat) :
    cleanName s =
      (s.takeWhile (fun c => c ≠ 0)).filter (fun c => decide (keepPred c)) := by
  unfold cleanName
  induction s.takeWhile (fun c => c ≠ 0) with
  | nil => rfl
  | cons c rest ih =>
      rw [List.flatMap_cons, List.filter_cons, ih, keepChar_eq]
      by_cases h : keepPred c
      · simp [h]
      · simp [h]

theorem parseFuel_zero (buf : List Nat) (pos : Nat) (acc : List GPKentry) :
    parseFuel 0 buf pos acc =
      match parseStep buf pos with
      | StepRes.stop => some acc.reverse
      | StepRes.skip _ => none
      | StepRes.emit _ _ => none := rfl

theorem parseFuel_succ (f : Nat) (buf : List Nat) (pos : Nat)
    (acc : List GPKentry) :
    parseFuel (f + 1) buf pos acc =
      match parseStep buf pos with
      | StepRes.stop => some acc.reverse
      | StepRes.skip p => parseFuel f buf p acc
      | StepRes.emit e p => parseFuel f buf p (e :: acc) := rfl

theorem parseStep_stop_of_le (buf : List Nat) (pos : Nat)
    (h : buf.length ≤ pos) : parseStep buf pos = StepRes.stop := by
  unfold parseStep
  rw [if_pos (by omega : ¬ pos < buf.length)]

theorem parseStep_skip_eq (buf : List Nat) (pos p : Nat)
    (h : parseStep buf pos = StepRes.skip p) :
    p = pos + 2 + 2 * readU16 buf pos + entryHeaderSize := by
  unfold parseStep at h
  simp only [] at h
  split at h
  · simp at h
  · split at h
    · simp at h
    · split at h
      · simp at h
      · split at h
        · simp at h
        · split at h
          · injection h with h1
            exact h1.symm
          · split at h
            · simp at h
            · simp at h

theorem parseStep_emit_eq (buf : List Nat) (pos : Nat) (e : GPKentry) (p : Nat)
    (h : parseStep buf pos = StepRes.emit e p) :
    p = pos + 2 + 2 * readU16 buf pos + entryHeaderSize := by
  unfold parseStep at h
  simp only [] at h
  split at h
  · simp at h
  · split at h
    · simp at h
    · split at h
      · simp at h
      · split at h
        · simp at h
        · split at h
          · simp at h
          · split at h
            · simp at h
            · injection h with h1 h2
              exact h2.symm

theorem parseStep_emit_name (buf : List Nat) (pos : Nat) (e : GPKentry)
    (p : Nat) (h : parseStep buf pos = StepRes.emit e p) :
    e.name = cleanName (utf16le_to_utf8
      ((buf.drop (pos + 2)).take (2 * readU16 buf pos))) ∧ e.name ≠ [] := by
  unfold parseStep at h
  simp only [] at h
  split at h
  · simp at h
  · split at h
    · simp at h
    · split at h
      · simp at h
      · split at h
        · simp at h
        · split at h
          · simp at h
          · split at h
            · simp at h
            · rename_i hne _
              injection h with h1 h2
              subst h1
              exact ⟨rfl, hne⟩

theorem parseStep_skip_ge (buf : List Nat) (pos p : Nat)
    (h : parseStep buf pos = StepRes.skip p) : pos + 2 ≤ p := by
  have h1 := parseStep_skip_eq buf pos p h
  omega

theorem parseStep_emit_ge (buf : List Nat) (pos : Nat) (e : GPKentry)
    (p : Nat) (h : parseStep buf pos = StepRes.emit e p) : pos + 2 ≤ p := by
  have h1 := parseStep_emit_eq buf pos e p h
  omega

theorem parseFuel_isSome (buf : List Nat) :
    ∀ fuel pos acc, buf.length ≤ 2 * fuel + pos →
      (parseFuel fuel buf pos acc).isSome := by
  intro fuel
  induction fuel with
  | zero =>
      intro pos acc h
      rw [parseFuel_zero, parseStep_stop_of_le buf pos (by omega)]
      simp
  | succ f ih =>
      intro pos acc h
      rw [parseFuel_succ]
      cases hs : parseStep buf pos with
      | stop => simp
      | skip p =>
          have hp := parseStep_skip_ge buf pos p hs
          exact ih p acc (by omega)
      | emit e p =>
          have hp := parseStep_emit_ge buf pos e p hs
          exact ih p (e :: acc) (by omega)

theorem parseFuel_entries_prop (buf : List Nat) (Q : GPKentry → Prop)
    (hQ : ∀ pos e p, parseStep buf pos = StepRes.emit e p → Q e) :
    ∀ fuel pos acc res, (∀ e ∈ acc, Q e) →
      parseFuel fuel buf pos acc = some res → ∀ e ∈ res, Q e := by
  intro fuel
  induction fuel with
  | zero =>
      intro pos acc res hacc hres e he
      rw [parseFuel_zero] at hres
      cases hs : parseStep buf pos <;> rw [hs] at hres
      · injection hres with h1
        subst h1
        exact hacc e (List.mem_reverse.mp he)
      · simp at hres
      · simp at hres
  | succ f ih =>
      intro pos acc res hacc hres e he
      rw [parseFuel_succ] at hres
      cases hs : parseStep buf pos <;> rw [hs] at hres
      · injection hres with h1
        subst h1
        exact hacc e (List.mem_reverse.mp he)
      · exact ih _ _ _ hacc hres e he
      · rename_i e2 p
        refine ih _ _ _ ?_ hres e he
        intro x hx
        rcases List.mem_cons.mp hx with h1 | h1
        · subst h1
          exact hQ pos x p hs
        · exact hacc x h1

theorem cleanName_mem (s : List Nat) (c : Nat) (h : c ∈ cleanName s) :
    keepPred c := by
  rw [cleanName_eq_filter] at h
  have h1 := List.of_mem_filter h
  exact of_decide_eq_true h1

/-- C1 counterexample: sizeof(GPKEntryHeader) under pack(1) is 23 bytes, not
the 21 bytes the claim states (the listed fields sum to 23). -/
theorem c1_cex : entryHeaderSize ≠ 21 := by decide

/-- C1 (amended): the EntryHeader is a fixed 23-byte packed record, and the
entry-stream parser advances its cursor by exactly this record size past
each consumed header, both when an entry is emitted and when an entry with
an empty sanitized name is skipped. -/
theorem c1_header_size_and_advance (buf : List Nat) (pos p : Nat) :
    entryHeaderSize = 23 ∧
    (parseStep buf pos = StepRes.skip p →
      p = pos + 2 + 2 * readU16 buf pos + entryHeaderSize) ∧
    (∀ e, parseStep buf pos = StepRes.emit e p →
      p = pos + 2 + 2 * readU16 buf pos + entryHeaderSize) :=
  ⟨rfl, parseStep_skip_eq buf pos p, fun e => parseStep_emit_eq buf pos e p⟩

theorem c1_witness :
    (27 : Nat) = 0 + 2 + 2 * readU16 [1, 0, 0, 0] 0 + entryHeaderSize :=
  (c1_header_size_and_advance [1, 0, 0, 0] 0 27).2.1 (by decide)

/-- C2 counterexample: a 3-byte input makes decompress_data return the input
bytes unchanged as a success, not a Truncated error. -/
theorem c2_cex :
    decompress_data (fun _ => none) [1, 2, 3] = Except.ok [1, 2, 3] := rfl

/-- C2 (amended): for every input byte sequence shorter than 4 bytes, the
index-blob decompression returns the input unchanged as a success (there is
no error path for short inputs). -/
theorem c2_short_input_passthrough (inflate : List Nat → Option (List Nat))
    (data : List Nat) (h : data.length < 4) :
    decompress_data inflate data = Except.ok data := by
  unfold decompress_data
  rw [if_pos h]

theorem c2_witness :
    decompress_data (fun _ => some []) [255] = Except.ok [255] :=
  c2_short_input_passthrough (fun _ => some []) [255] (by decide)

/-- C3 counterexample: with a declared size of 5 and a codec producing a
single byte, decompress_data succeeds and returns that 1-byte buffer - a
size disagreement is not an error and the result is silently shorter than
the declared size. -/
theorem c3_cex :
    decompress_data (fun _ => some [7]) [0, 0, 0, 5, 9] = Except.ok [7] ∧
    declaredSize [0, 0, 0, 5, 9] = 5 ∧ ([7] : List Nat).length ≠ 5 :=
  ⟨rfl, rfl, by decide⟩

/-- C3 (amended): for every blob of at least 4 bytes with nonzero declared
size whose payload inflates without error to at most the declared number of
bytes, decompress_data returns exactly the bytes the codec produced; the
result is resized to the codec output length, so a codec output shorter
than the declared size is returned silently rather than being an error
(only an output longer than the declared size is a codec error). -/
theorem c3_result_is_codec_output (inflate : List Nat → Option (List Nat))
    (data out : List Nat) (hlen : ¬ data.length < 4)
    (hsz : ¬ declaredSize data = 0)
    (hinf : inflate (data.drop 4) = some out)
    (hfit : ¬ declaredSize data < out.length) :
    decompress_data inflate data = Except.ok out := by
  unfold decompress_data
  rw [if_neg hlen]
  simp only [hinf, if_neg hsz, if_neg hfit]

theorem c3_witness :
    decompress_data (fun _ => some [5, 6]) [0, 0, 0, 2, 9] = Except.ok [5, 6] :=
  c3_result_is_codec_output (fun _ => some [5, 6]) [0, 0, 0, 2, 9] [5, 6]
    (by decide) (by decide) rfl (by decide)

/-- C6 counterexample: a backslash passes the keep filter and is kept
verbatim, not rewritten to a slash (the rewrite branch is unreachable); and
the two bytes of the UTF-8 encoding of a small-e-acute, which are neither
control characters nor among the seven listed characters, are dropped. -/
theorem c6_cex :
    cleanName [92] = [92] ∧ cleanName [92] ≠ [47] ∧
    cleanName [195, 169] = [] := ⟨by decide, by decide, by decide⟩

/-- C6 (amended): name sanitization first discards everything from the first
NUL onwards, then keeps exactly the characters in the printable ASCII range
0x20-0x7E other than the seven characters listed (backslash and slash each
kept as themselves - no separator normalization happens), and drops every
other character, including DEL and all bytes at or above 0x80. -/
theorem c6_sanitize_is_filter (s : List Nat) :
    cleanName s =
      (s.takeWhile (fun c => c ≠ 0)).filter (fun c => decide (keepPred c)) :=
  cleanName_eq_filter s

/-- C8 counterexample: an index entry whose name contains a backslash - the
parse of this buffer stores the one-character name consisting of the byte
92. -/
theorem c8_cex :
    (parseIndex ([1, 0, 92, 0] ++ List.replicate 23 0)).map (fun e => e.name) =
      [[92]] := by decide

/-- C8 (amended): every entry stored in the index has a non-empty name whose
characters all lie in the printable ASCII range 0x20-0x7E and avoid the
seven characters listed; a backslash, however, can appear in a stored name
(path separators are not normalized). -/
theorem c8_index_names (buf : List Nat) (e : GPKentry)
    (he : e ∈ parseIndex buf) :
    e.name ≠ [] ∧ ∀ c ∈ e.name, 32 ≤ c ∧ c ≤ 126 ∧
      c ∉ ([60, 62, 58, 34, 124, 63, 42] : List Nat) := by
  have hQ : ∀ pos e2 p, parseStep buf pos = StepRes.emit e2 p →
      (e2.name ≠ [] ∧ ∀ c ∈ e2.name, keepPred c) := by
    intro pos e2 p hs
    obtain ⟨hname, hne⟩ := parseStep_emit_name buf pos e2 p hs
    refine ⟨hne, ?_⟩
    intro c hc
    rw [hname] at hc
    exact cleanName_mem _ c hc
  have hsome := parseFuel_isSome buf buf.length 0 [] (by omega)
  obtain ⟨res, hres⟩ := Option.isSome_iff_exists.mp hsome
  have hidx : parseIndex buf = res := by
    unfold parseIndex
    rw [hres]
    rfl
  rw [hidx] at he
  have hall := parseFuel_entries_prop buf
    (fun e2 => e2.name ≠ [] ∧ ∀ c ∈ e2.name, keepPred c) hQ
    buf.length 0 [] res (by intro x hx; exact absurd hx (List.not_mem_nil x))
    hres e he
  exact ⟨hall.1, fun c hc => hall.2 c hc⟩

theorem c8_witness :
    (([92] : List Nat) ≠ []) ∧ ∀ c ∈ ([92] : List Nat), 32 ≤ c ∧ c ≤ 126 ∧
      c ∉ ([60, 62, 58, 34, 124, 63, 42] : List Nat) :=
  c8_index_names ([1, 0, 92, 0] ++ List.replicate 23 0)
    ⟨[92], ⟨0, 0, 0, 0, 0, [0, 0, 0, 0], 0, 0⟩⟩ (by decide)

/-- C9: the entry-stream parse loop terminates for every finite decompressed
buffer - each iteration either stops or strictly advances the cursor by at
least 2 bytes, so running the loop with fuel equal to the buffer length
never exhausts the fuel, from any start position and accumulator. -/
theorem c9_parse_terminates (buf : List Nat) (pos : Nat)
    (acc : List GPKentry) : (parseFuel buf.length buf pos acc).isSome :=
  parseFuel_isSome buf buf.length pos acc (by omega)


theorem load_cases (inflate fs : List Nat → Option (List Nat))
    (g : GPKState) (fn : List Nat) :
    (∃ r, load inflate fs g fn = (r, { g with name := fn }) ∧
      r ≠ LoadResult.ok) ∨
    (∃ ents, load inflate fs g fn =
      (LoadResult.ok, { name := fn, entries := g.entries ++ ents })) := by
  unfold load
  cases hfs : fs fn with
  | none => exact Or.inl ⟨LoadResult.openFail, rfl, by simp⟩
  | some file =>
      simp only []
      split
      · exact Or.inl ⟨LoadResult.badSignature, rfl, by simp⟩
      · split
        · exact Or.inl ⟨LoadResult.badSignature, rfl, by simp⟩
        · split
          · exact Or.inl ⟨_, rfl, by simp⟩
          · exact Or.inr ⟨_, rfl⟩

theorem sread_length (s : InStream) (n : Nat) : (sread s n).1.length = n := by
  unfold sread
  split
  · simp
  · simp only [List.length_append, List.length_take, List.length_replicate,
      List.length_drop]
    omega

theorem unpack_lengths (entries : List GPKentry) (s : InStream) :
    (unpack_all entries s).1.map (fun o => o.2.length) =
      entries.map (fun e => e.header.comprlen) := by
  induction entries generalizing s with
  | nil => rfl
  | cons e rest ih =>
      unfold unpack_all
      simp only [List.map_cons, sread_length, ih]

theorem unpack_all_inbounds (file : List Nat) :
    ∀ (entries : List GPKentry),
      (∀ e ∈ entries, e.header.offset + e.header.comprlen ≤ file.length) →
      ∀ pos, ∃ q, unpack_all entries ⟨file, pos, false⟩ =
        (entries.map (fun e =>
          (e.name, (file.drop e.header.offset).take e.header.comprlen)),
         ⟨file, q, false⟩) := by
  intro entries
  induction entries with
  | nil =>
      intro h pos
      exact ⟨pos, rfl⟩
  | cons e rest ih =>
      intro h pos
      have he := h e (List.mem_cons_self e rest)
      have hseek : sseek ⟨file, pos, false⟩ e.header.offset =
          (⟨file, e.header.offset, false⟩ : InStream) := rfl
      have hread : sread ⟨file, e.header.offset, false⟩ e.header.comprlen =
          ((file.drop e.header.offset).take e.header.comprlen,
           ⟨file, e.header.offset + e.header.comprlen, false⟩) := by
        unfold sread
        have hmin : min e.header.comprlen (file.length - e.header.offset) =
            e.header.comprlen := by omega
        simp only [hmin]
        simp [List.take_of_length_le, Nat.sub_self, Nat.lt_irrefl]
      obtain ⟨q, hq⟩ := ih (fun x hx => h x (List.mem_cons_of_mem e hx))
        (e.header.offset + e.header.comprlen)
      refine ⟨q, ?_⟩
      unfold unpack_all
      rw [hseek]
      simp only []
      rw [hread]
      simp only []
      rw [hq]
      simp

/-- C4 counterexample: a valid trailer declaring pidx_length 100 on a
32-byte file (so the blob range overflows: 100 is larger than file length
minus trailer size, which is 0).  load does not stop with any
trailer-stage error: it proceeds through blob read, decrypt and
decompress, and surfaces a decompression codec error instead. -/
theorem c4_cex :
    readU32 (trailerOf (GPK_TAILER_IDENT0 ++ [100, 0, 0, 0] ++
      GPK_TAILER_IDENT1)) 12 = 100 ∧
    (GPK_TAILER_IDENT0 ++ [100, 0, 0, 0] ++ GPK_TAILER_IDENT1).length = 32 ∧
    load (fun _ => none)
      (fun p => if p = [97] then
        some (GPK_TAILER_IDENT0 ++ [100, 0, 0, 0] ++ GPK_TAILER_IDENT1)
      else none) ⟨[], []⟩ [97] =
      (LoadResult.decodeFail DecodeError.codec, ⟨[97], []⟩) :=
  ⟨by decide, by decide, by decide⟩

/-- C4 (amended): after validating both trailer signatures the blob seek
position is computed as file_length - sizeof(Trailer) - pidx_length with no
range validation.  Whenever pidx_length exceeds file_length minus the
trailer size, the seek fails, the read leaves the pidx_length-byte buffer
zero-filled, and load proceeds to decrypt and decompress that zero buffer -
failing, if at all, only with a decompression error, never with a
trailer-stage truncation error. -/
theorem c4_no_range_check (inflate fs : List Nat → Option (List Nat))
    (g : GPKState) (fn file : List Nat)
    (hfs : fs fn = some file)
    (hsz : ¬ file.length < sigRecordSize)
    (hsig : ¬ ((trailerOf file).take 12 ≠ GPK_TAILER_IDENT0 ∨
        ((trailerOf file).drop 16).take 16 ≠ GPK_TAILER_IDENT1))
    (hover : ¬ sigRecordSize + readU32 (trailerOf file) 12 ≤ file.length) :
    load inflate fs g fn =
      match decompress_data inflate
          (xorCipher (List.replicate (readU32 (trailerOf file) 12) 0)) with
      | Except.error e => (LoadResult.decodeFail e, { g with name := fn })
      | Except.ok u =>
          (LoadResult.ok, { name := fn, entries := g.entries ++ parseIndex u }) := by
  unfold load
  rw [hfs]
  simp only [if_neg hsz, if_neg hsig, if_neg hover]

theorem c4_witness :
    load (fun _ => none)
      (fun p => if p = [98] then
        some (GPK_TAILER_IDENT0 ++ [5, 0, 0, 0] ++ GPK_TAILER_IDENT1)
      else none) ⟨[], []⟩ [98] =
      (LoadResult.decodeFail DecodeError.codec, ⟨[98], []⟩) := by
  rw [c4_no_range_check (fun _ => none)
    (fun p => if p = [98] then
      some (GPK_TAILER_IDENT0 ++ [5, 0, 0, 0] ++ GPK_TAILER_IDENT1)
    else none) ⟨[], []⟩ [98]
    (GPK_TAILER_IDENT0 ++ [5, 0, 0, 0] ++ GPK_TAILER_IDENT1)
    (by decide) (by decide) (by decide) (by decide)]
  decide

/-- C5 counterexample: an entry declaring 4 bytes at offset 0 of a 2-byte
archive extracts without any error to a 4-byte output whose tail is zero
padding - a short read is not detected and the written content is not the
archive byte range. -/
theorem c5_cex :
    unpackOutputs [1, 2] [⟨[65], ⟨0, 0, 0, 0, 4, [0, 0, 0, 0], 0, 0⟩⟩] =
      [([65], [1, 2, 0, 0])] := by decide

/-- C5 (amended): extraction writes, for every entry in index order, a file
of exactly header.comprlen bytes; whenever every entry range
[offset, offset + comprlen) lies within the archive file, each written
content equals the archive bytes of that range.  A short read is not
detected: the buffer simply keeps its zero fill past the bytes read, and no
error is raised. -/
theorem c5_extract_bytes (file : List Nat) (entries : List GPKentry) :
    (unpackOutputs file entries).map (fun o => o.2.length) =
      entries.map (fun e => e.header.comprlen) ∧
    ((∀ e ∈ entries, e.header.offset + e.header.comprlen ≤ file.length) →
      unpackOutputs file entries = entries.map (fun e =>
        (e.name, (file.drop e.header.offset).take e.header.comprlen))) := by
  constructor
  · exact unpack_lengths entries ⟨file, 0, false⟩
  · intro h
    obtain ⟨q, hq⟩ := unpack_all_inbounds file entries h 0
    unfold unpackOutputs
    rw [hq]

theorem c5_witness :
    unpackOutputs [1, 2, 3] [⟨[65], ⟨0, 0, 0, 1, 2, [0, 0, 0, 0], 0, 0⟩⟩] =
      [([65], [2, 3])] := by
  rw [(c5_extract_bytes [1, 2, 3]
    [⟨[65], ⟨0, 0, 0, 1, 2, [0, 0, 0, 0], 0, 0⟩⟩]).2 (by decide)]
  decide

/-- C10: load is not atomic on failure - the file path is stored into the
name field before any validation, so after any load (also a failed one) the
stored name and getName reflect the given path, while a failed load leaves
the entry list exactly as it was before the call. -/
theorem c10_load_name_entries (inflate fs : List Nat → Option (List Nat))
    (g : GPKState) (fn : List Nat) :
    (load inflate fs g fn).2.name = fn ∧
    getName (load inflate fs g fn).2 = displayName fn ∧
    ((load inflate fs g fn).1 ≠ LoadResult.ok →
      (load inflate fs g fn).2.entries = g.entries) := by
  rcases load_cases inflate fs g fn with ⟨r, hr, hne⟩ | ⟨ents, hr⟩
  · rw [hr]
    exact ⟨rfl, rfl, fun _ => rfl⟩
  · rw [hr]
    exact ⟨rfl, rfl, fun hne2 => absurd rfl hne2⟩

theorem c10_witness :
    (load (fun _ => none) (fun _ => none)
      ⟨[120], [⟨[65], ⟨0, 0, 0, 0, 0, [0, 0, 0, 0], 0, 0⟩⟩]⟩
      [97, 46, 98]).2.entries =
      [⟨[65], ⟨0, 0, 0, 0, 0, [0, 0, 0, 0], 0, 0⟩⟩] :=
  (c10_load_name_entries (fun _ => none) (fun _ => none)
    ⟨[120], [⟨[65], ⟨0, 0, 0, 0, 0, [0, 0, 0, 0], 0, 0⟩⟩]⟩
    [97, 46, 98]).2.2 (by decide)
